import Mathlib

/-!
Verification of the CppAwait asynchronous composition runtime.

The development shallowly embeds the Awaitable state machine and the
combinators declared in `include/CppAwait/Awaitable.h`, the callback
wrapper `detail::CallbackWrapper`, and `CallbackGuard` from
`include/CppAwait/impl/CallbackGuard.h`.

The repository snapshot contains only the headers: the bodies of
`Awaitable::await`, `Awaitable::complete`, `Awaitable::fail`,
`Awaitable::setAwaitingCoro` and `Awaitable::isDone` (in Awaitable.cpp)
are not present, so those operations are modelled from the specification
(§4.3 and §8 of the spec); the templated combinators `awaitAll`,
`awaitAny`, `asyncAny`, the wrapper `detail::CallbackWrapper` and
`CallbackGuard` are embedded directly from the header source.

Exceptions (`std::exception_ptr`) are modelled as `Option Nat`: `none`
is the empty exception pointer and a `Nat` is the identity of a captured
exception, so that "same exception identity" is equality of the `Nat`.
Coroutines are identified by `Nat` ids.
-/

namespace CppAwait

/-- The four Awaitable states (spec §3: `state ∈ {Initial, Running, Completed, Failed}`). -/
inductive AState where
  | Initial
  | Running
  | Completed
  | Failed
deriving DecidableEq, Repr

/-- The observable fields of `AwaitableImpl` that the claims are about:
the state, the captured exception (`none` = empty `exception_ptr`), and
the coroutine registered via `setAwaitingCoro` (`none` = no awaiter). -/
structure AwaitableImpl where
  state : AState
  exception : Option Nat
  awaitingCoro : Option Nat
deriving DecidableEq, Repr

/-- Modelled from the spec (§8, the body of `Awaitable::isDone` is not in
the snapshot): `a.isDone()` iff state ∈ {Completed, Failed}. -/
def isDone (a : AwaitableImpl) : Bool :=
  a.state == AState.Completed || a.state == AState.Failed

/-- Modelled from the spec (the body of `Awaitable::setAwaitingCoro` is not
in the snapshot): registers (or clears, with `none`) the continuation
coroutine, leaving state and exception untouched. -/
def setAwaitingCoro (a : AwaitableImpl) (c : Option Nat) : AwaitableImpl :=
  { a with awaitingCoro := c }

/-- The resumption performed by `complete` / `fail` when an awaiting
coroutine is registered: a plain `yieldTo`, or a `yieldExceptionTo`
carrying the failure. -/
inductive ResumeEvent where
  | resume (coro : Nat)
  | resumeWithException (coro : Nat) (e : Nat)
deriving DecidableEq, Repr

/-- Modelled from the spec (§4.3, the body of `Awaitable::complete` is not
in the snapshot): if the state is already terminal this is a no-op;
otherwise the state becomes Completed and, if an awaiting coroutine is
registered, it is resumed. The returned `Option ResumeEvent` records
whether a coroutine was resumed. -/
def complete (a : AwaitableImpl) : AwaitableImpl × Option ResumeEvent :=
  if isDone a then (a, none)
  else ({ a with state := AState.Completed },
        match a.awaitingCoro with
        | some c => some (ResumeEvent.resume c)
        | none => none)

/-- Modelled from the spec (§4.3, the body of `Awaitable::fail` is not in
the snapshot): if the state is already terminal this is a no-op;
otherwise the state becomes Failed with the exception captured and, if an
awaiting coroutine is registered, the exception is raised on it. -/
def fail (a : AwaitableImpl) (e : Nat) : AwaitableImpl × Option ResumeEvent :=
  if isDone a then (a, none)
  else ({ a with state := AState.Failed, exception := some e },
        match a.awaitingCoro with
        | some c => some (ResumeEvent.resumeWithException c e)
        | none => none)

/-- Outcome of one call to `Awaitable::await` as seen by the calling
coroutine: it returned normally, it raised an exception, or it suspended
(yielded to the bound coroutine or to master). -/
inductive AwaitOutcome where
  | returned
  | raised (e : Nat)
  | suspended
deriving DecidableEq, Repr

/-- Modelled from the spec (§4.3 steps 1–3, the body of `Awaitable::await`
is not in the snapshot): on Completed return immediately; on Failed
re-raise the stored exception; otherwise register the current coroutine
as the awaiter and suspend. Returns the outcome together with the
awaitable as left behind by the call. -/
def await (cur : Nat) (a : AwaitableImpl) : AwaitOutcome × AwaitableImpl :=
  match a.state with
  | AState.Completed => (AwaitOutcome.returned, a)
  | AState.Failed => (AwaitOutcome.raised (a.exception.getD 0), a)
  | _ => (AwaitOutcome.suspended, setAwaitingCoro a (some cur))

/-- `await` called `n + 1` times in sequence from coroutine `cur`,
threading the awaitable through; the result is the outcome of the last
call paired with the final awaitable. -/
def awaitIter (cur : Nat) (a : AwaitableImpl) : Nat → AwaitOutcome × AwaitableImpl
  | 0 => await cur a
  | n + 1 => awaitIter cur (await cur a).2 n

/-- Rank of a state along the monotonic order
`Initial → Running → (Completed | Failed)`. -/
def stateRank : AState → Nat
  | AState.Initial => 0
  | AState.Running => 1
  | AState.Completed => 2
  | AState.Failed => 2

theorem isDone_iff (a : AwaitableImpl) :
    isDone a = true ↔ a.state = AState.Completed ∨ a.state = AState.Failed := by
  cases a with
  | mk s e c => cases s <;> simp [isDone]

/-- **C1.** Awaitable state is monotonic along
`Initial → Running → (Completed | Failed)`: `complete`, `fail` and
`await` never decrease the state rank, and once `isDone()` holds every
operation (`complete`, `fail`, `setAwaitingCoro`, `await`) leaves both
the state and the stored exception unchanged; in particular `complete`
on a terminal Awaitable is an exact no-op that returns the record
unchanged and resumes no awaiting coroutine. -/
theorem awaitable_terminal_frozen (a : AwaitableImpl) (h : isDone a = true) :
    complete a = (a, none) ∧
    (∀ e, fail a e = (a, none)) ∧
    (∀ c, (setAwaitingCoro a c).state = a.state ∧
          (setAwaitingCoro a c).exception = a.exception) ∧
    (∀ cur, (await cur a).2 = a) ∧
    (∀ b, stateRank b.state ≤ stateRank (complete b).1.state) ∧
    (∀ b e, stateRank b.state ≤ stateRank (fail b e).1.state) ∧
    (∀ b cur, stateRank b.state ≤ stateRank (await cur b).2.state) := by
  refine ⟨?_, ?_, ?_, ?_, ?_, ?_, ?_⟩
  · simp [complete, h]
  · intro e; simp [fail, h]
  · intro c; exact ⟨rfl, rfl⟩
  · intro cur
    rcases (isDone_iff a).mp h with hs | hs <;> simp [await, hs]
  · intro b
    by_cases hb : isDone b = true
    · simp [complete, hb]
    · cases b with
      | mk s e c => cases s <;> simp_all [complete, isDone, stateRank]
  · intro b e
    by_cases hb : isDone b = true
    · simp [fail, hb]
    · cases b with
      | mk s ex c => cases s <;> simp_all [fail, isDone, stateRank]
  · intro b cur
    cases b with
    | mk s ex c => cases s <;> simp [await, setAwaitingCoro, stateRank]

/-- Witness for C1 at a concrete terminal Awaitable. -/
theorem awaitable_terminal_frozen_witness :
    isDone ⟨AState.Completed, none, none⟩ = true ∧
    complete ⟨AState.Completed, none, none⟩ = (⟨AState.Completed, none, none⟩, none) :=
  ⟨by decide, (awaitable_terminal_frozen ⟨AState.Completed, none, none⟩ (by decide)).1⟩

/-!
### awaitAll (Awaitable.h lines 379–392)

`awaitAll` iterates the collection with `awaitables.begin() .. end()`,
skips elements whose selector yields `nullptr`, and calls `await()` on
each selected Awaitable; an exception from `await()` propagates out of
the loop. A collection element is embedded as `Option (AwaitableImpl ×
Driver)`: `none` is a `nullptr` selection, and the `Driver` says how the
element's pending operation will end if `await` has to suspend on it
(such completions arrive from the run loop while the collection's owner
is suspended).
-/

/-- How a not-yet-terminal element's operation eventually ends while the
awaiter is suspended on it: successful completion or failure with a
given exception. -/
inductive Driver where
  | ok
  | err (e : Nat)
deriving DecidableEq, Repr

/-- One full `awt->await()` call as performed inside the `awaitAll` loop:
if the element is already terminal the call returns or raises at once
(spec §4.3 step 1); otherwise the awaiter registers and suspends, the
driver then completes or fails the element, and the resumed `await`
re-checks the now-terminal state (spec §4.3 step 4). Returns the
element's final record and the exception the call raised, if any. -/
def driveAwait (cur : Nat) (a : AwaitableImpl) (d : Driver) : AwaitableImpl × Option Nat :=
  match (await cur a).1 with
  | AwaitOutcome.returned => (a, none)
  | AwaitOutcome.raised e => (a, some e)
  | AwaitOutcome.suspended =>
      match d with
      | Driver.ok => ((complete (await cur a).2).1, none)
      | Driver.err e => ((fail (await cur a).2 e).1, some e)

/-- The `awaitAll` loop, carrying the index of the current element.
Returns the final element records, the indices on which `await()` was
called in order, and the exception that escaped the loop, if any. When
an element's `await()` raises, the loop body is abandoned: the remaining
elements keep their entry records untouched. -/
def awaitAllFrom (cur : Nat) : Nat → List (Option (AwaitableImpl × Driver)) →
    List (Option AwaitableImpl) × List Nat × Option Nat
  | _, [] => ([], [], none)
  | i, none :: rest =>
      let r := awaitAllFrom cur (i + 1) rest
      (none :: r.1, r.2.1, r.2.2)
  | i, some (a, d) :: rest =>
      match driveAwait cur a d with
      | (a2, none) =>
          let r := awaitAllFrom cur (i + 1) rest
          (some a2 :: r.1, i :: r.2.1, r.2.2)
      | (a2, some e) =>
          (some a2 :: rest.map (fun o => o.map Prod.fst), [i], some e)

/-- `awaitAll` on a collection, from coroutine `cur` (source asserts
`currentCoro() != masterCoro()`). -/
def awaitAll (cur : Nat) (l : List (Option (AwaitableImpl × Driver))) :
    List (Option AwaitableImpl) × List Nat × Option Nat :=
  awaitAllFrom cur 0 l

/-- An element on which the `awaitAll` loop does not stop: a `nullptr`
selection, or one whose `await()` raises nothing. -/
def elemOk (cur : Nat) : Option (AwaitableImpl × Driver) → Bool
  | none => true
  | some (a, d) => ((driveAwait cur a d).2).isNone

/-- Indices of non-null elements of a list, starting the count at `i`. -/
def nonNullIdx : Nat → List (Option α) → List Nat
  | _, [] => []
  | i, none :: rest => nonNullIdx (i + 1) rest
  | i, some _ :: rest => i :: nonNullIdx (i + 1) rest

theorem driveAwait_ok_completed (cur : Nat) (a : AwaitableImpl) (d : Driver)
    (h : (driveAwait cur a d).2 = none) :
    (driveAwait cur a d).1.state = AState.Completed := by
  cases a with
  | mk s e c =>
    cases s <;> cases d <;>
      simp_all [driveAwait, await, complete, fail, setAwaitingCoro, isDone]

theorem awaitAllFrom_decomp (cur : Nat) (pre post : List (Option (AwaitableImpl × Driver)))
    (a : AwaitableImpl) (d : Driver) (e : Nat)
    (hpre : ∀ o ∈ pre, elemOk cur o = true)
    (hfail : (driveAwait cur a d).2 = some e) :
    ∀ i, awaitAllFrom cur i (pre ++ some (a, d) :: post) =
      (pre.map (fun o => o.map (fun p => (driveAwait cur p.1 p.2).1))
         ++ some (driveAwait cur a d).1 :: post.map (fun o => o.map Prod.fst),
       nonNullIdx i pre ++ [i + pre.length],
       some e) := by
  induction pre with
  | nil =>
    intro i
    rcases hda : driveAwait cur a d with ⟨a2, r⟩
    rw [hda] at hfail
    simp only at hfail
    subst hfail
    simp [awaitAllFrom, hda, nonNullIdx]
  | cons o pre ih =>
    intro i
    have ho : elemOk cur o = true := hpre o (List.mem_cons_self o pre)
    have hrest : ∀ o2 ∈ pre, elemOk cur o2 = true :=
      fun o2 hm => hpre o2 (List.mem_cons_of_mem o hm)
    have hih := ih hrest (i + 1)
    have harr : i + 1 + pre.length = i + (pre.length + 1) := by omega
    cases o with
    | none =>
      simp [awaitAllFrom, hih, nonNullIdx, harr]
    | some p =>
      obtain ⟨a0, d0⟩ := p
      rcases hda0 : driveAwait cur a0 d0 with ⟨a02, r0⟩
      have hr0 : r0 = none := by
        have hb := ho
        simp [elemOk, hda0, Option.isNone_iff_eq_none] at hb
        exact hb
      subst hr0
      simp [awaitAllFrom, hda0, hih, nonNullIdx, harr]

/-- **C3.** `awaitAll` awaits each selected element in iterator order and
short-circuits on the first failure: when every element before position
`pre.length` either selects to null or awaits without raising, and the
element there raises `e`, then `awaitAll` propagates exactly `e`, the
await trace is the non-null positions of the prefix followed by the
failing position (nothing after it is awaited), the elements after the
failing position keep their entry records untouched, and every selected
element of the prefix ends in (and keeps) state Completed. -/
theorem awaitAll_first_failure_short_circuits (cur : Nat)
    (pre post : List (Option (AwaitableImpl × Driver)))
    (a : AwaitableImpl) (d : Driver) (e : Nat)
    (hpre : ∀ o ∈ pre, elemOk cur o = true)
    (hfail : (driveAwait cur a d).2 = some e) :
    awaitAll cur (pre ++ some (a, d) :: post) =
      (pre.map (fun o => o.map (fun p => (driveAwait cur p.1 p.2).1))
         ++ some (driveAwait cur a d).1 :: post.map (fun o => o.map Prod.fst),
       nonNullIdx 0 pre ++ [pre.length],
       some e) ∧
    (∀ o ∈ pre, ∀ p, o = some p →
      (driveAwait cur p.1 p.2).1.state = AState.Completed) := by
  constructor
  · simpa using awaitAllFrom_decomp cur pre post a d e hpre hfail 0
  · intro o hm p hp
    have ho : elemOk cur o = true := hpre o hm
    subst hp
    have hok : (driveAwait cur p.1 p.2).2 = none := by
      obtain ⟨a0, d0⟩ := p
      simpa [elemOk, Option.isNone_iff_eq_none] using ho
    exact driveAwait_ok_completed cur p.1 p.2 hok

/-- Witness for C3: a concrete run in which element 0 completes, element 1
is a null selection, element 2 fails with exception 5, and element 3 is
never awaited. -/
theorem awaitAll_first_failure_short_circuits_witness :
    (∀ o ∈ [some (⟨AState.Initial, none, none⟩, Driver.ok), none], elemOk 1 o = true) ∧
    (driveAwait 1 ⟨AState.Running, none, none⟩ (Driver.err 5)).2 = some 5 ∧
    awaitAll 1 [some (⟨AState.Initial, none, none⟩, Driver.ok), none,
        some (⟨AState.Running, none, none⟩, Driver.err 5),
        some (⟨AState.Initial, none, none⟩, Driver.ok)] =
      ([some ⟨AState.Completed, none, some 1⟩, none,
        some ⟨AState.Failed, some 5, some 1⟩,
        some (⟨AState.Initial, none, none⟩ : AwaitableImpl)],
       [0, 2], some 5) := by
  refine ⟨by decide, by decide, ?_⟩
  have h := (awaitAll_first_failure_short_circuits 1
    [some (⟨AState.Initial, none, none⟩, Driver.ok), none]
    [some (⟨AState.Initial, none, none⟩, Driver.ok)]
    ⟨AState.Running, none, none⟩ (Driver.err 5) 5 (by decide) (by decide)).1
  exact h.trans (by decide)

/-!
### awaitAny (Awaitable.h lines 402–453)

`awaitAny` makes a first pass returning the first element that
`isDone()`, tracking whether any non-null element was seen
(`havePendingAwts`); with no done element and no pending element it
returns `awaitables.begin()`; otherwise it registers `currentCoro()` on
every non-null element via `setAwaitingCoro`, yields to the master
coroutine, and after resumption clears `awaitingCoro` on every non-null
element and returns an iterator to the first element that is now done.

A collection is a `List (Option AwaitableImpl)` (`none` = `nullptr`
selection); an iterator is an index, with `l.length` playing the role of
`end()` (for the empty collection `begin() = end() = 0`). What happens
to the elements between `yieldTo(masterCoro())` and resumption is a
parameter `upd`: the completions performed by the run loop while this
coroutine is suspended.
-/

/-- Index of the first element that `isDone()`, as found by the first
pass of `awaitAny`; `none` when no element is done. -/
def firstDoneIdx : List (Option AwaitableImpl) → Option Nat
  | [] => none
  | none :: rest => (firstDoneIdx rest).map (fun i => i + 1)
  | some a :: rest =>
      if isDone a then some 0 else (firstDoneIdx rest).map (fun i => i + 1)

/-- Value of the source's `havePendingAwts` flag in the only situation
where it is consulted (the first pass found no done element, hence
examined every element): true iff some element selects non-null. -/
def havePendingAwts (l : List (Option AwaitableImpl)) : Bool :=
  l.any Option.isSome

/-- Result of `awaitAny`: the returned iterator (an index; `length` =
`end()`), whether the call suspended via `yieldTo(masterCoro())`, and
the element records when it returns. -/
structure AnyResult where
  pos : Nat
  suspended : Bool
  finals : List (Option AwaitableImpl)
deriving DecidableEq, Repr

/-- `awaitAny` from coroutine `cur` (source asserts `currentCoro() !=
masterCoro()`), with `upd` giving the effect of the run loop on the
elements while the caller is suspended. -/
def awaitAny (cur : Nat)
    (upd : List (Option AwaitableImpl) → List (Option AwaitableImpl))
    (l : List (Option AwaitableImpl)) : AnyResult :=
  match firstDoneIdx l with
  | some i => ⟨i, false, l⟩
  | none =>
    if havePendingAwts l then
      let registered := l.map (fun o => o.map (fun a => setAwaitingCoro a (some cur)))
      let cleared := (upd registered).map (fun o => o.map (fun a => setAwaitingCoro a none))
      ⟨(firstDoneIdx cleared).getD cleared.length, true, cleared⟩
    else ⟨0, false, l⟩

theorem firstDoneIdx_eq_none (l : List (Option AwaitableImpl))
    (h : ∀ (k : Nat) (c : AwaitableImpl), l[k]? = some (some c) → isDone c = false) :
    firstDoneIdx l = none := by
  induction l with
  | nil => rfl
  | cons o rest ih =>
    have hrest : ∀ (k : Nat) (c : AwaitableImpl),
        rest[k]? = some (some c) → isDone c = false := by
      intro k c hk
      exact h (k + 1) c (by simpa using hk)
    cases o with
    | none => simp [firstDoneIdx, ih hrest]
    | some a =>
      have ha : isDone a = false := h 0 a (by simp)
      simp [firstDoneIdx, ha, ih hrest]

theorem firstDoneIdx_isSome (l : List (Option AwaitableImpl)) (j : Nat) (a : AwaitableImpl)
    (hj : l[j]? = some (some a)) (ha : isDone a = true) :
    (firstDoneIdx l).isSome = true := by
  induction l generalizing j with
  | nil => simp at hj
  | cons o rest ih =>
    cases j with
    | zero =>
      simp at hj
      subst hj
      simp [firstDoneIdx, ha]
    | succ j =>
      have hj2 : rest[j]? = some (some a) := by simpa using hj
      cases o with
      | none => simp [firstDoneIdx, ih j hj2]
      | some a2 =>
        cases h2 : isDone a2 with
        | true => simp [firstDoneIdx, h2]
        | false => simp [firstDoneIdx, h2, ih j hj2]

theorem firstDoneIdx_spec (l : List (Option AwaitableImpl)) (i : Nat)
    (h : firstDoneIdx l = some i) :
    ∃ b, l[i]? = some (some b) ∧ isDone b = true ∧
      ∀ k < i, ∀ c, l[k]? = some (some c) → isDone c = false := by
  induction l generalizing i with
  | nil => simp [firstDoneIdx] at h
  | cons o rest ih =>
    cases o with
    | none =>
      rw [show firstDoneIdx (none :: rest) = (firstDoneIdx rest).map (fun i => i + 1)
        from rfl] at h
      rw [Option.map_eq_some'] at h
      obtain ⟨i0, h0, hi⟩ := h
      subst hi
      obtain ⟨b, hb, hdone, hmin⟩ := ih i0 h0
      refine ⟨b, by simpa using hb, hdone, ?_⟩
      intro k hk c hkc
      cases k with
      | zero => simp at hkc
      | succ k => exact hmin k (by omega) c (by simpa using hkc)
    | some a =>
      cases hda : isDone a with
      | true =>
        rw [show firstDoneIdx (some a :: rest) =
          (if isDone a then some 0 else (firstDoneIdx rest).map (fun i => i + 1)) from rfl,
          hda] at h
        simp only [if_true] at h
        obtain rfl : (0 : Nat) = i := Option.some.inj h
        refine ⟨a, by simp, hda, ?_⟩
        intro k hk
        omega
      | false =>
        rw [show firstDoneIdx (some a :: rest) =
          (if isDone a then some 0 else (firstDoneIdx rest).map (fun i => i + 1)) from rfl,
          hda] at h
        simp only [if_false, Bool.false_eq_true] at h
        rw [Option.map_eq_some'] at h
        obtain ⟨i0, h0, hi⟩ := h
        subst hi
        obtain ⟨b, hb, hdone, hmin⟩ := ih i0 h0
        refine ⟨b, by simpa using hb, hdone, ?_⟩
        intro k hk c hkc
        cases k with
        | zero =>
          simp at hkc
          subst hkc
          exact hda
        | succ k => exact hmin k (by omega) c (by simpa using hkc)

theorem firstDoneIdx_eq_of_unique (l : List (Option AwaitableImpl)) (j : Nat)
    (b : AwaitableImpl)
    (hj : l[j]? = some (some b)) (hb : isDone b = true)
    (hlt : ∀ k < j, ∀ c, l[k]? = some (some c) → isDone c = false) :
    firstDoneIdx l = some j := by
  induction l generalizing j with
  | nil => simp at hj
  | cons o rest ih =>
    cases j with
    | zero =>
      simp at hj
      subst hj
      simp [firstDoneIdx, hb]
    | succ j =>
      have hj2 : rest[j]? = some (some b) := by simpa using hj
      have hlt2 : ∀ k < j, ∀ c, rest[k]? = some (some c) → isDone c = false := by
        intro k hk c hc
        exact hlt (k + 1) (by omega) c (by simpa using hc)
      cases o with
      | none => simp [firstDoneIdx, ih j hj2 hlt2]
      | some a =>
        have ha : isDone a = false := hlt 0 (by omega) a (by simp)
        simp [firstDoneIdx, ha, ih j hj2 hlt2]

/-- **C7.** `awaitAny` on an empty collection returns
`awaitables.begin()` (index 0, which is also `end()` of the empty
collection) without suspending the calling coroutine — and, being a
total function into `AnyResult`, without raising. -/
theorem awaitAny_empty_returns_begin (cur : Nat)
    (upd : List (Option AwaitableImpl) → List (Option AwaitableImpl)) :
    awaitAny cur upd [] = ⟨0, false, []⟩ := rfl

/-- **C5.** When at least one selected element is already done at entry,
`awaitAny` returns immediately (`suspended = false`, every element left
exactly as it was) and the returned index points at the first done
element in iterator order: the element there is done and every selected
element before it is not done — so with two already-completed elements
`[x, y]` the result is the index of `x`. -/
theorem awaitAny_done_at_entry_first_wins (cur : Nat)
    (upd : List (Option AwaitableImpl) → List (Option AwaitableImpl))
    (l : List (Option AwaitableImpl)) (j : Nat) (a : AwaitableImpl)
    (hj : l[j]? = some (some a)) (ha : isDone a = true) :
    (awaitAny cur upd l).suspended = false ∧
    (awaitAny cur upd l).finals = l ∧
    (∃ b, l[(awaitAny cur upd l).pos]? = some (some b) ∧ isDone b = true ∧
      ∀ k < (awaitAny cur upd l).pos, ∀ c, l[k]? = some (some c) → isDone c = false) := by
  have hs := firstDoneIdx_isSome l j a hj ha
  rcases Option.isSome_iff_exists.mp hs with ⟨i, hi⟩
  have he : awaitAny cur upd l = ⟨i, false, l⟩ := by
    simp [awaitAny, hi]
  obtain ⟨b, hb, hdone, hmin⟩ := firstDoneIdx_spec l i hi
  rw [he]
  exact ⟨rfl, rfl, b, hb, hdone, hmin⟩

/-- Witness for C5: spec scenario 4 — both elements of `[x, y]` already
completed; the returned index is 0, i.e. `x`. -/
theorem awaitAny_done_at_entry_first_wins_witness :
    ([some ⟨AState.Completed, none, none⟩,
      some ⟨AState.Completed, none, none⟩] : List (Option AwaitableImpl))[0]?
        = some (some ⟨AState.Completed, none, none⟩) ∧
    isDone ⟨AState.Completed, none, none⟩ = true ∧
    ((awaitAny 1 id [some ⟨AState.Completed, none, none⟩,
        some ⟨AState.Completed, none, none⟩]).suspended = false ∧
     (awaitAny 1 id [some ⟨AState.Completed, none, none⟩,
        some ⟨AState.Completed, none, none⟩]).finals =
       [some ⟨AState.Completed, none, none⟩, some ⟨AState.Completed, none, none⟩] ∧
     (∃ b, ([some ⟨AState.Completed, none, none⟩,
        some ⟨AState.Completed, none, none⟩] :
          List (Option AwaitableImpl))[(awaitAny 1 id
            [some ⟨AState.Completed, none, none⟩,
             some ⟨AState.Completed, none, none⟩]).pos]? = some (some b) ∧
        isDone b = true ∧
        ∀ k < (awaitAny 1 id [some ⟨AState.Completed, none, none⟩,
            some ⟨AState.Completed, none, none⟩]).pos, ∀ c,
          ([some ⟨AState.Completed, none, none⟩,
            some ⟨AState.Completed, none, none⟩] :
              List (Option AwaitableImpl))[k]? = some (some c) → isDone c = false)) :=
  ⟨by decide, by decide,
   awaitAny_done_at_entry_first_wins 1 id
     [some ⟨AState.Completed, none, none⟩, some ⟨AState.Completed, none, none⟩]
     0 ⟨AState.Completed, none, none⟩ (by decide) (by decide)⟩

/-- **C4.** On a collection containing a Failed element, `awaitAny`
itself raises nothing: it returns (without suspending) an index to a
done element, and the stored exception surfaces only through a
subsequent `await()` on the designated element — `await` on it raises
the stored exception identity when it is Failed, and returns normally
when it is Completed. -/
theorem awaitAny_failed_defers_exception (cur cur2 : Nat)
    (upd : List (Option AwaitableImpl) → List (Option AwaitableImpl))
    (l : List (Option AwaitableImpl)) (j : Nat) (a : AwaitableImpl)
    (hj : l[j]? = some (some a)) (hf : a.state = AState.Failed) :
    (awaitAny cur upd l).suspended = false ∧
    (∃ b, l[(awaitAny cur upd l).pos]? = some (some b) ∧ isDone b = true ∧
      (∀ e, b.state = AState.Failed → b.exception = some e →
        (await cur2 b).1 = AwaitOutcome.raised e) ∧
      (b.state = AState.Completed → (await cur2 b).1 = AwaitOutcome.returned)) := by
  have ha : isDone a = true := by
    simp [isDone, hf]
  have hs := firstDoneIdx_isSome l j a hj ha
  rcases Option.isSome_iff_exists.mp hs with ⟨i, hi⟩
  have he : awaitAny cur upd l = ⟨i, false, l⟩ := by
    simp [awaitAny, hi]
  obtain ⟨b, hb, hdone, _⟩ := firstDoneIdx_spec l i hi
  rw [he]
  refine ⟨rfl, b, hb, hdone, ?_, ?_⟩
  · intro e hbf hbe
    simp [await, hbf, hbe]
  · intro hbc
    simp [await, hbc]

/-- Witness for C4: a one-element collection holding a Failed Awaitable
with stored exception 3. -/
theorem awaitAny_failed_defers_exception_witness :
    ([some ⟨AState.Failed, some 3, none⟩] : List (Option AwaitableImpl))[0]?
        = some (some ⟨AState.Failed, some 3, none⟩) ∧
    (⟨AState.Failed, some 3, none⟩ : AwaitableImpl).state = AState.Failed ∧
    ((awaitAny 1 id [some ⟨AState.Failed, some 3, none⟩]).suspended = false ∧
     (∃ b, ([some ⟨AState.Failed, some 3, none⟩] :
        List (Option AwaitableImpl))[(awaitAny 1 id
          [some ⟨AState.Failed, some 3, none⟩]).pos]? = some (some b) ∧
        isDone b = true ∧
        (∀ e, b.state = AState.Failed → b.exception = some e →
          (await 2 b).1 = AwaitOutcome.raised e) ∧
        (b.state = AState.Completed → (await 2 b).1 = AwaitOutcome.returned))) :=
  ⟨by decide, rfl,
   awaitAny_failed_defers_exception 1 2 id [some ⟨AState.Failed, some 3, none⟩]
     0 ⟨AState.Failed, some 3, none⟩ (by decide) rfl⟩

/-- **C6.** When `awaitAny` suspends (no element done at entry, at
least one selected) and the run loop's only effect while it is
suspended is to finish the element at position `j` — the completion
that resumes the caller, making that element's record `b`, terminal —
then `awaitAny` reports a suspension, the returned index is exactly
`j` (the element whose completion or failure caused the resumption),
and `awaitingCoro` has been cleared on every selected element of the
returned records. -/
theorem awaitAny_resumption_position (cur : Nat)
    (upd : List (Option AwaitableImpl) → List (Option AwaitableImpl))
    (l : List (Option AwaitableImpl)) (j : Nat) (a0 b : AwaitableImpl)
    (hnd : ∀ (k : Nat) (c : AwaitableImpl), l[k]? = some (some c) → isDone c = false)
    (hj : l[j]? = some (some a0))
    (hb : isDone b = true)
    (hupd : upd (l.map (fun o => o.map (fun a => setAwaitingCoro a (some cur)))) =
      (l.map (fun o => o.map (fun a => setAwaitingCoro a (some cur)))).set j (some b)) :
    (awaitAny cur upd l).suspended = true ∧
    (awaitAny cur upd l).pos = j ∧
    (awaitAny cur upd l).finals[j]? = some (some (setAwaitingCoro b none)) ∧
    (∀ (k : Nat) (c : AwaitableImpl),
      (awaitAny cur upd l).finals[k]? = some (some c) → c.awaitingCoro = none) := by
  have hnone : firstDoneIdx l = none := firstDoneIdx_eq_none l hnd
  have hpend : havePendingAwts l = true := by
    have hmem : some a0 ∈ l := List.getElem?_mem hj
    simp only [havePendingAwts, List.any_eq_true]
    exact ⟨some a0, hmem, rfl⟩
  have hjlt : j < l.length := (List.getElem?_eq_some.mp hj).1
  have he : awaitAny cur upd l =
      ⟨(firstDoneIdx (((l.map (fun o => o.map (fun a => setAwaitingCoro a (some cur)))).set
            j (some b)).map (fun o => o.map (fun a => setAwaitingCoro a none)))).getD
          ((((l.map (fun o => o.map (fun a => setAwaitingCoro a (some cur)))).set
            j (some b)).map (fun o => o.map (fun a => setAwaitingCoro a none))).length),
        true,
        (((l.map (fun o => o.map (fun a => setAwaitingCoro a (some cur)))).set
            j (some b)).map (fun o => o.map (fun a => setAwaitingCoro a none)))⟩ := by
    simp only [awaitAny, hnone, hpend, hupd, if_true]
  have hjlt2 : j < (l.map (fun o => o.map (fun a => setAwaitingCoro a (some cur)))).length := by
    simpa using hjlt
  have hatj : (((l.map (fun o => o.map (fun a => setAwaitingCoro a (some cur)))).set
        j (some b)).map (fun o => o.map (fun a => setAwaitingCoro a none)))[j]?
      = some (some (setAwaitingCoro b none)) := by
    rw [List.getElem?_map, List.getElem?_set_self hjlt2]
    rfl
  have hoff : ∀ (k : Nat) (c : AwaitableImpl), k ≠ j →
      (((l.map (fun o => o.map (fun a => setAwaitingCoro a (some cur)))).set
          j (some b)).map (fun o => o.map (fun a => setAwaitingCoro a none)))[k]?
        = some (some c) → isDone c = false := by
    intro k c hk hkc
    rw [List.getElem?_map, List.getElem?_set_ne (fun hjk => hk hjk.symm),
      List.getElem?_map] at hkc
    rcases hl : l[k]? with _ | o
    · rw [hl] at hkc
      simp at hkc
    · rw [hl] at hkc
      cases o with
      | none => simp at hkc
      | some c0 =>
        have hc : c = setAwaitingCoro (setAwaitingCoro c0 (some cur)) none := by
          simp at hkc
          exact hkc.symm
        have hc0 : isDone c0 = false := hnd k c0 hl
        subst hc
        simpa [isDone, setAwaitingCoro] using hc0
  have hdone2 : isDone (setAwaitingCoro b none) = true := by
    simpa [isDone, setAwaitingCoro] using hb
  have hfd : firstDoneIdx (((l.map (fun o => o.map (fun a => setAwaitingCoro a (some cur)))).set
        j (some b)).map (fun o => o.map (fun a => setAwaitingCoro a none))) = some j := by
    refine firstDoneIdx_eq_of_unique _ j (setAwaitingCoro b none) hatj hdone2 ?_
    intro k hk c hc
    exact hoff k c (by omega) hc
  have hpos : (firstDoneIdx (((l.map (fun o =>
        o.map (fun a => setAwaitingCoro a (some cur)))).set j (some b)).map
          (fun o => o.map (fun a => setAwaitingCoro a none)))).getD
      ((((l.map (fun o => o.map (fun a => setAwaitingCoro a (some cur)))).set
        j (some b)).map (fun o => o.map (fun a => setAwaitingCoro a none))).length) = j := by
    rw [hfd, Option.getD_some]
  have hclear : ∀ (k : Nat) (c : AwaitableImpl),
      ((((l.map (fun o => o.map (fun a => setAwaitingCoro a (some cur)))).set
        j (some b)).map (fun o => o.map (fun a => setAwaitingCoro a none))))[k]?
        = some (some c) → c.awaitingCoro = none := by
    intro k c hkc
    rw [List.getElem?_map] at hkc
    rcases hx : (((l.map (fun o => o.map (fun a => setAwaitingCoro a (some cur)))).set
        j (some b)))[k]? with _ | o
    · rw [hx] at hkc
      simp at hkc
    · rw [hx] at hkc
      cases o with
      | none => simp at hkc
      | some c0 =>
        have hc : c = setAwaitingCoro c0 none := by
          simp at hkc
          exact hkc.symm
        subst hc
        rfl
  rw [he]
  exact ⟨rfl, hpos, hatj, hclear⟩

/-- Witness for C6: two pending elements; while the caller is suspended
the run loop completes the element at position 1, and `awaitAny`
returns index 1 with `awaitingCoro` cleared everywhere. -/
theorem awaitAny_resumption_position_witness :
    (∀ (k : Nat) (c : AwaitableImpl),
      ([some ⟨AState.Running, none, none⟩, some ⟨AState.Initial, none, none⟩] :
        List (Option AwaitableImpl))[k]? = some (some c) → isDone c = false) ∧
    ([some ⟨AState.Running, none, none⟩, some ⟨AState.Initial, none, none⟩] :
      List (Option AwaitableImpl))[1]? = some (some ⟨AState.Initial, none, none⟩) ∧
    isDone ⟨AState.Completed, none, some 1⟩ = true ∧
    ((awaitAny 1 (fun l2 => l2.set 1 (some ⟨AState.Completed, none, some 1⟩))
        [some ⟨AState.Running, none, none⟩, some ⟨AState.Initial, none, none⟩]).suspended
          = true ∧
     (awaitAny 1 (fun l2 => l2.set 1 (some ⟨AState.Completed, none, some 1⟩))
        [some ⟨AState.Running, none, none⟩, some ⟨AState.Initial, none, none⟩]).pos = 1 ∧
     (awaitAny 1 (fun l2 => l2.set 1 (some ⟨AState.Completed, none, some 1⟩))
        [some ⟨AState.Running, none, none⟩,
         some ⟨AState.Initial, none, none⟩]).finals[1]?
       = some (some (setAwaitingCoro ⟨AState.Completed, none, some 1⟩ none)) ∧
     (∀ (k : Nat) (c : AwaitableImpl),
       (awaitAny 1 (fun l2 => l2.set 1 (some ⟨AState.Completed, none, some 1⟩))
          [some ⟨AState.Running, none, none⟩,
           some ⟨AState.Initial, none, none⟩]).finals[k]? = some (some c) →
         c.awaitingCoro = none)) := by
  refine ⟨?_, by decide, by decide, ?_⟩
  · intro k c hkc
    match k, hkc with
    | 0, hkc => simp at hkc; subst hkc; rfl
    | 1, hkc => simp at hkc; subst hkc; rfl
  · refine awaitAny_resumption_position 1
      (fun l2 => l2.set 1 (some ⟨AState.Completed, none, some 1⟩))
      [some ⟨AState.Running, none, none⟩, some ⟨AState.Initial, none, none⟩]
      1 ⟨AState.Initial, none, none⟩ ⟨AState.Completed, none, some 1⟩
      ?_ (by decide) (by decide) (by decide)
    intro k c hkc
    match k, hkc with
    | 0, hkc => simp at hkc; subst hkc; rfl
    | 1, hkc => simp at hkc; subst hkc; rfl

/-- **C2.** `await` is idempotent on a terminal Awaitable: however many
times it is called in sequence, on a Completed Awaitable every call
returns immediately (outcome `returned`, never `suspended`) leaving the
record unchanged, and on a Failed Awaitable storing exception `e` every
call raises exactly `e` — the same exception identity each time. -/
theorem await_terminal_idempotent (cur n : Nat) (a : AwaitableImpl) :
    (a.state = AState.Completed →
      awaitIter cur a n = (AwaitOutcome.returned, a)) ∧
    (∀ e, a.state = AState.Failed → a.exception = some e →
      awaitIter cur a n = (AwaitOutcome.raised e, a)) := by
  induction n generalizing a with
  | zero =>
    refine ⟨fun hc => ?_, fun e hf he => ?_⟩
    · simp [awaitIter, await, hc]
    · simp [awaitIter, await, hf, he]
  | succ n ih =>
    refine ⟨fun hc => ?_, fun e hf he => ?_⟩
    · have ha : (await cur a).2 = a := by simp [await, hc]
      simpa [awaitIter, ha] using (ih a).1 hc
    · have ha : (await cur a).2 = a := by simp [await, hf]
      simpa [awaitIter, ha] using (ih a).2 e hf he

/-- Witness for C2: three repeated awaits on a concrete Failed Awaitable
raise the stored exception 7 every time. -/
theorem await_terminal_idempotent_witness :
    (⟨AState.Failed, some 7, none⟩ : AwaitableImpl).state = AState.Failed ∧
    awaitIter 1 ⟨AState.Failed, some 7, none⟩ 3 =
      (AwaitOutcome.raised 7, ⟨AState.Failed, some 7, none⟩) :=
  ⟨rfl, (await_terminal_idempotent 1 3 ⟨AState.Failed, some 7, none⟩).2 7 rfl rfl⟩

/-!
### detail::CallbackWrapper (Awaitable.h lines 649–695)

`operator()` expands `UT_CALLBACK_WRAPPER_IMPL`: if the completer is not
expired it calls the stored callback with the forwarded arguments,
obtaining an `exception_ptr`; a non-empty result (`is(eptr)`) triggers
`mCompleter.fail(eptr)`, an empty one triggers `mCompleter()` (i.e.
`complete()`). If the completer is expired nothing happens — the
callback is not even invoked.
-/

/-- The call the wrapper makes on its Completer. -/
inductive CompleterAction where
  | completeCall
  | failCall (e : Nat)
deriving DecidableEq, Repr

/-- What one invocation of the wrapper did: the argument the stored
callback was called with (`none` = not called), and the Completer call
that followed (`none` = none made). -/
structure WrapResult (α : Type) where
  calledWith : Option α
  action : Option CompleterAction
deriving DecidableEq, Repr

/-- `detail::CallbackWrapper::operator()`: `expired` is
`mCompleter.isExpired()`, `fn` the stored callback (returning `none`
for the empty `exception_ptr`), `arg` the forwarded arguments. -/
def callbackWrapperInvoke {α : Type} (expired : Bool) (fn : α → Option Nat) (arg : α) :
    WrapResult α :=
  if expired then ⟨none, none⟩
  else
    match fn arg with
    | some e => ⟨some arg, some (CompleterAction.failCall e)⟩
    | none => ⟨some arg, some CompleterAction.completeCall⟩

/-- **C8.** Invoking the wrapper returned by `Completer::wrap(fn)` does
nothing when the Completer is expired (in particular `fn` is not
called); otherwise it calls `fn` with the forwarded argument and then
calls `fail e` when `fn` returned the non-empty exception handle `e`,
and `complete` when `fn` returned the empty one. -/
theorem callbackWrapper_invoke_spec {α : Type} (fn : α → Option Nat) (arg : α) :
    callbackWrapperInvoke true fn arg = ⟨none, none⟩ ∧
    (∀ e, fn arg = some e →
      callbackWrapperInvoke false fn arg =
        ⟨some arg, some (CompleterAction.failCall e)⟩) ∧
    (fn arg = none →
      callbackWrapperInvoke false fn arg = ⟨some arg, some CompleterAction.completeCall⟩) := by
  refine ⟨rfl, ?_, ?_⟩
  · intro e he
    simp [callbackWrapperInvoke, he]
  · intro he
    simp [callbackWrapperInvoke, he]

/-- Witness for C8 with the callback that fails with exception 4 on
argument 0 and succeeds on argument 1. -/
theorem callbackWrapper_invoke_spec_witness :
    callbackWrapperInvoke true (fun n => if n == 0 then some 4 else none) 0 = ⟨none, none⟩ ∧
    callbackWrapperInvoke false (fun n => if n == 0 then some 4 else none) 0 =
      ⟨some 0, some (CompleterAction.failCall 4)⟩ ∧
    callbackWrapperInvoke false (fun n => if n == 0 then some 4 else none) 1 =
      ⟨some 1, some CompleterAction.completeCall⟩ :=
  ⟨(callbackWrapper_invoke_spec (fun n => if n == 0 then some 4 else none) 0).1,
   (callbackWrapper_invoke_spec (fun n => if n == 0 then some 4 else none) 0).2.1 4 rfl,
   (callbackWrapper_invoke_spec (fun n => if n == 0 then some 4 else none) 1).2.2 rfl⟩

/-!
### CallbackGuard (impl/CallbackGuard.h lines 28–77)

A guard owns `mIsBlocked : shared_ptr<bool>` created holding `false`;
`getToken()` hands out tokens sharing the same cell;
`Token::isBlocked()` dereferences the cell; `block()` writes `true`;
the destructor calls `block()`. Nothing ever writes `false` back. The
cell's value over the guard's lifetime is the fold of the operations
applied to it, starting from `false`.
-/

/-- Operations touching a CallbackGuard's shared cell. `destroy` is the
destructor (which calls `block()`); `getToken` only reads the cell. -/
inductive GuardOp where
  | blockOp
  | destroy
  | getToken
deriving DecidableEq, Repr

/-- Effect of one guard operation on the shared boolean cell:
`block()` and the destructor write `true`; `getToken()` leaves it. -/
def guardApply (cell : Bool) : GuardOp → Bool
  | GuardOp.blockOp => true
  | GuardOp.destroy => true
  | GuardOp.getToken => cell

/-- Value of the shared cell after a sequence of guard operations,
starting from the constructor's `make_shared<bool>(false)`. -/
def cellAfter (ops : List GuardOp) : Bool :=
  ops.foldl guardApply false

/-- `Token::isBlocked()`: every token returned by `getToken()` holds the
same shared cell, so each one reads exactly the cell's current value. -/
def tokenIsBlocked (cell : Bool) : Bool :=
  cell

theorem foldl_guardApply_true (ops : List GuardOp) :
    ops.foldl guardApply true = true := by
  induction ops with
  | nil => rfl
  | cons op rest ih =>
    cases op <;> simpa [guardApply] using ih

/-- **C9.** For every token of a CallbackGuard (they all read the one
shared boolean cell): `isBlocked()` is false after any sequence of
operations that contains neither `block()` nor the guard's destruction,
and once a `block()` or a destruction has occurred, `isBlocked()` is
true after every continuation of the sequence — destroying the guard
sets the single shared cell, so every outstanding token reports
blocked from then on. -/
theorem callbackGuard_token_blocked (ops more : List GuardOp) :
    ((∀ op ∈ ops, op ≠ GuardOp.blockOp ∧ op ≠ GuardOp.destroy) →
      tokenIsBlocked (cellAfter ops) = false) ∧
    (GuardOp.blockOp ∈ ops ∨ GuardOp.destroy ∈ ops →
      tokenIsBlocked (cellAfter (ops ++ more)) = true) := by
  constructor
  · intro h
    induction ops with
    | nil => rfl
    | cons op rest ih =>
      have hop := h op (List.mem_cons_self op rest)
      have hrest := fun op2 hm => h op2 (List.mem_cons_of_mem op hm)
      cases op with
      | blockOp => exact absurd rfl hop.1
      | destroy => exact absurd rfl hop.2
      | getToken => simpa [tokenIsBlocked, cellAfter, guardApply] using ih hrest
  · intro h
    have hone : cellAfter ops = true := by
      induction ops with
      | nil => simp at h
      | cons op rest ih =>
        cases op with
        | blockOp =>
          simp only [cellAfter, List.foldl_cons, guardApply]
          exact foldl_guardApply_true rest
        | destroy =>
          simp only [cellAfter, List.foldl_cons, guardApply]
          exact foldl_guardApply_true rest
        | getToken =>
          have h2 : GuardOp.blockOp ∈ rest ∨ GuardOp.destroy ∈ rest := by
            rcases h with h | h <;> [left; right] <;> simpa using h
          simpa [cellAfter, guardApply] using ih h2
    have : cellAfter (ops ++ more) = true := by
      rw [cellAfter, List.foldl_append]
      rw [cellAfter] at hone
      rw [hone]
      exact foldl_guardApply_true more
    simpa [tokenIsBlocked] using this

/-- Witness for C9: a token taken and consulted before any block reads
false; after the guard's destruction and two more reads it reads true. -/
theorem callbackGuard_token_blocked_witness :
    tokenIsBlocked (cellAfter [GuardOp.getToken, GuardOp.getToken]) = false ∧
    tokenIsBlocked (cellAfter ([GuardOp.getToken, GuardOp.destroy] ++
      [GuardOp.getToken, GuardOp.getToken])) = true :=
  ⟨(callbackGuard_token_blocked [GuardOp.getToken, GuardOp.getToken] []).1 (by decide),
   (callbackGuard_token_blocked [GuardOp.getToken, GuardOp.destroy]
     [GuardOp.getToken, GuardOp.getToken]).2 (Or.inr (by decide))⟩

/-!
### asyncAny on an empty collection (Awaitable.h lines 464–475)

`asyncAny` spawns `startAsync("asyncAny", body)`; for an empty
collection the body executes `yieldTo(masterCoro())` — the source
comments it `// never complete` — without calling `setAwaitingCoro`
on anything, so no Awaitable holds a registration that could resume
the body. The composite Awaitable of `startAsync` becomes terminal
only when its body finishes.
-/

/-- From the source: the set of registrations the empty-collection
`asyncAny` body leaves behind before `yieldTo(masterCoro())` — it
registers on no element, so the set is empty. -/
def asyncAnyEmptyRegs : List Nat :=
  []

/-- State of a `startAsync` composite: whether the suspended body has
ever been resumed, and the composite Awaitable's state. -/
structure CoState where
  resumed : Bool
  awtState : AState
deriving DecidableEq, Repr

/-- Modelled from the spec (§4.3, §5; the `startAsync` / `Coro` bodies
are not in the snapshot): a coroutine suspended at
`yieldTo(masterCoro())` is resumed only through `complete()` / `fail()`
on an Awaitable where it is registered as `awaitingCoro`, and the
composite Awaitable of `startAsync` becomes terminal only when its
(resumed) body runs to its end. -/
inductive BodyStep (regs : List Nat) : CoState → CoState → Prop where
  | wake (s : CoState) (r : Nat) (h : r ∈ regs) :
      BodyStep regs s { s with resumed := true }
  | finish (s : CoState) (h : s.resumed = true) :
      BodyStep regs s { s with awtState := AState.Completed }

/-- The composite's state right after the empty-collection `asyncAny`
body yields to master: body suspended, never resumed, Awaitable
Running. -/
def asyncAnyEmptyStart : CoState :=
  ⟨false, AState.Running⟩

/-- **C10.** The composite Awaitable of `asyncAny` on an empty
collection never completes: from the state where the body has yielded
to master with no registration, every reachable state still has the
body unresumed and the Awaitable in state Running — never terminal
(`isDone` false). (`awaitAny` on an empty collection, by contrast,
returns `begin()` immediately.) -/
theorem asyncAny_empty_never_completes (s : CoState)
    (h : Relation.ReflTransGen (BodyStep asyncAnyEmptyRegs) asyncAnyEmptyStart s) :
    s.resumed = false ∧ s.awtState = AState.Running ∧
    isDone ⟨s.awtState, none, none⟩ = false := by
  induction h with
  | refl => exact ⟨rfl, rfl, rfl⟩
  | tail hmid hstep ih =>
    cases hstep with
    | wake r hr => exact absurd hr (List.not_mem_nil r)
    | finish hres =>
      rw [ih.1] at hres
      exact absurd hres (by simp)

/-- Witness for C10 at the start state itself. -/
theorem asyncAny_empty_never_completes_witness :
    asyncAnyEmptyStart.resumed = false ∧ asyncAnyEmptyStart.awtState = AState.Running ∧
    isDone ⟨asyncAnyEmptyStart.awtState, none, none⟩ = false :=
  asyncAny_empty_never_completes asyncAnyEmptyStart Relation.ReflTransGen.refl

end CppAwait
